import Mathlib

/-!
Verification development for the job-shop MILP formulation scripts of this
repository (`stage_1.py` and the concatenated `stage 2.py` / `stage 3.py` /
`stage 4.py`).

The scripts build mixed-integer linear models with an external solver.  Here
each script's constraint emission is shallowly embedded: job and machine
identifiers are natural numbers, times and durations are rationals, binary
variables are rationals constrained to `{0, 1}`, and "the model's
constraints" become a `Prop`-valued feasibility predicate over a record of
decision-variable valuations.  The post-solve printing blocks are embedded as
extraction functions from a solver status plus a valuation.
-/

set_option allowUnsafeReducibility true

attribute [semireducible] Rat.add Rat.sub Rat.mul Rat.inv Rat.ofScientific

namespace BTP

abbrev Machine := Nat

abbrev JobId := Nat

/-- One operation of a route: the machine it needs and its processing time
(`(machine, processing_time)` in the scripts). -/
abbrev Op := Machine × ℚ

/-- A problem instance: association list from job id to its ordered route,
mirroring the scripts' `jobs` / `routes` dictionaries (keys in order). -/
abbrev Jobs := List (JobId × List Op)

/-- `sum(len(ops) for ops in routes.values())` — the scripts' `K`. -/
def totalOps (R : Jobs) : ℕ := (R.map fun ir => ir.2.length).sum

/-- `sum(p for ops in routes.values() for (_, p) in ops)` — `total_proc` in
`stage 4.py`. -/
def totalDur (R : Jobs) : ℚ := (R.flatMap fun ir => ir.2.map Prod.snd).sum

/-- `sorted({m for ops in routes.values() for (m, _) in ops})`. -/
def machinesOf (R : Jobs) : List Machine :=
  List.insertionSort (· ≤ ·) (R.flatMap fun ir => ir.2.map Prod.fst).dedup

/-- `routes[i]` — dictionary lookup of a job's route. -/
def routeOf (R : Jobs) (i : JobId) : List Op :=
  (R.lookup i).getD []

/-- `routes[i][t][0]` — the machine of job `i`'s operation `t`. -/
def mach (R : Jobs) (i : JobId) (t : ℕ) : Machine :=
  ((routeOf R i).getD t (0, 0)).1

/-- `routes[i][t][1]` — the duration of job `i`'s operation `t`. -/
def dur (R : Jobs) (i : JobId) (t : ℕ) : ℚ :=
  ((routeOf R i).getD t (0, 0)).2

/-- `ops = [(i, t) for i in jobs for t in range(len(routes[i]))]`. -/
def opsList (R : Jobs) : List (JobId × ℕ) :=
  R.flatMap fun ir => (List.range ir.2.length).map fun t => (ir.1, t)

/-- Solver termination status (`GRB` status codes that matter here). -/
inductive GStatus where
  | optimal
  | infeasible
  | unbounded
  | suboptimal
  | err
deriving DecidableEq

/-! ### `stage_1.py` — Strategy A: pairwise disjunctive ordering -/

/-- The `jobs` dictionary of `stage_1.py`. -/
def jobs1 : Jobs := [(1, [(1, 3), (2, 2)]), (2, [(2, 2), (1, 1)])]

/-- `machines = [1, 2]` in `stage_1.py`. -/
def machines1 : List Machine := [1, 2]

/-- `bigM = 1000` in `stage_1.py`. -/
def bigM1 : ℚ := 1000

/-- `ops = [(i, k) for i in jobs for k, (mm, _) in enumerate(jobs[i]) if mm == m]`:
the operations assigned to machine `m`, in emission order. -/
def machineOps (J : Jobs) (m : Machine) : List (JobId × ℕ) :=
  J.flatMap fun ir => (ir.2.enum.filter fun ke => ke.2.1 == m).map fun ke => (ir.1, ke.1)

/-- The label of one binary ordering indicator `x_{i}_{k}_{j}_{l}`:
the ordered pair of operations it was created for. -/
structure DisjPair where
  a : JobId × ℕ
  b : JobId × ℕ
deriving DecidableEq, Repr

/-- Syntax of one emitted disjunctive constraint
`S[sVar] >= C[cVar] - bigM * (1 - x)` (when `oneMinus`) or
`S[sVar] >= C[cVar] - bigM * x`; `xA, xB` label the gating indicator. -/
structure DisjCon where
  sVar : JobId × ℕ
  cVar : JobId × ℕ
  xA : JobId × ℕ
  xB : JobId × ℕ
  oneMinus : Bool
deriving DecidableEq, Repr

/-- The pairwise ordering loop body over a given operation list `ops`:
`for a in range(len(ops)): for b in range(a + 1, len(ops)):` one binary
indicator (labelled by the pair) and the two Big-M constraints. -/
def disjEmitAux (ops : List (JobId × ℕ)) : List (DisjPair × DisjCon × DisjCon) :=
  (List.range ops.length).flatMap fun a =>
    (List.range' (a + 1) (ops.length - (a + 1))).map fun b =>
      (⟨ops.getD a (0, 0), ops.getD b (0, 0)⟩,
       ⟨ops.getD a (0, 0), ops.getD b (0, 0), ops.getD a (0, 0), ops.getD b (0, 0), true⟩,
       ⟨ops.getD b (0, 0), ops.getD a (0, 0), ops.getD a (0, 0), ops.getD b (0, 0), false⟩)

/-- The machine non-overlap emission of `stage_1.py` (lines 46–58): the
pairwise loop applied to the operations of machine `m`. -/
def disjEmit (J : Jobs) (m : Machine) : List (DisjPair × DisjCon × DisjCon) :=
  disjEmitAux (machineOps J m)

/-- The ordering indicators introduced for machine `m`. -/
def disjPairs (J : Jobs) (m : Machine) : List DisjPair :=
  (disjEmit J m).map Prod.fst

/-- A valuation of the `stage_1.py` decision variables. -/
structure Sol1 where
  S : JobId × ℕ → ℚ
  C : JobId × ℕ → ℚ
  Cmax : ℚ
  x : JobId × ℕ → JobId × ℕ → ℚ

/-- Semantics of one emitted disjunctive constraint. -/
def DisjCon.holds (M : ℚ) (s : Sol1) (c : DisjCon) : Prop :=
  s.S c.sVar ≥ s.C c.cVar - M * (if c.oneMinus then 1 - s.x c.xA c.xB else s.x c.xA c.xB)

/-- The full constraint set of `stage_1.py`: variable bounds, completion-time
definition, within-job order, the pairwise disjunctions (with their binaries)
and the makespan lower bounds. -/
def stage1Feasible (J : Jobs) (ms : List Machine) (M : ℚ) (s : Sol1) : Prop :=
  (∀ ir ∈ J, ∀ k ∈ List.range ir.2.length, 0 ≤ s.S (ir.1, k) ∧ 0 ≤ s.C (ir.1, k)) ∧
  0 ≤ s.Cmax ∧
  (∀ ir ∈ J, ∀ ke ∈ ir.2.enum, s.C (ir.1, ke.1) = s.S (ir.1, ke.1) + ke.2.2) ∧
  (∀ ir ∈ J, ∀ k ∈ List.range (ir.2.length - 1), s.S (ir.1, k + 1) ≥ s.C (ir.1, k)) ∧
  (∀ m ∈ ms, ∀ e ∈ disjEmit J m,
    (s.x e.1.a e.1.b = 0 ∨ s.x e.1.a e.1.b = 1) ∧
    DisjCon.holds M s e.2.1 ∧ DisjCon.holds M s e.2.2) ∧
  (∀ ir ∈ J, s.Cmax ≥ s.C (ir.1, ir.2.length - 1))

/-- An optimal schedule for the `stage_1.py` instance: job 2 on M2 during
`[0,2]`, job 1 on M1 during `[0,3]`, job 1 on M2 during `[3,5]`, job 2 on M1
during `[3,4]`. -/
def solA : Sol1 where
  S := fun p =>
    if p = (1, 0) then 0 else if p = (1, 1) then 3 else
    if p = (2, 0) then 0 else if p = (2, 1) then 3 else 0
  C := fun p =>
    if p = (1, 0) then 3 else if p = (1, 1) then 5 else
    if p = (2, 0) then 2 else if p = (2, 1) then 4 else 0
  Cmax := 5
  x := fun p q => if p = (1, 1) ∧ q = (2, 0) then 1 else 0

/-- One line of `stage_1.py`'s result printing. -/
structure Entry1 where
  job : JobId
  op : ℕ
  start : ℚ
  finish : ℚ
deriving DecidableEq, Repr

/-- The result printing of `stage_1.py` (lines 78–83): reads `S` and `C`
values for every operation, with no status check. -/
def stage1Extract (vS vC : JobId × ℕ → ℚ) : List Entry1 :=
  jobs1.flatMap fun ir => (List.range ir.2.length).map fun k =>
    ⟨ir.1, k, vS (ir.1, k), vC (ir.1, k)⟩

/-- What `stage_1.py` does after the solve, as a function of the solver
status: the schedule is printed unconditionally (the status is ignored). -/
def stage1Report (st : GStatus) (vS vC : JobId × ℕ → ℚ) : Except GStatus (List Entry1) :=
  Except.ok (stage1Extract vS vC)

/-! ### `stage 2.py` — Strategy B: stage assignment -/

/-- The `jobs` dictionary of `stage 2.py`. -/
def jobs2 : Jobs := [(1, [(1, 3), (2, 2)]), (2, [(2, 2), (1, 1)]), (3, [(1, 2), (2, 1)])]

/-- `num_stages = 10` in `stage 2.py` (a hardcoded "simplified upper bound"). -/
def numStages2 : ℕ := 10

/-- `quicksum(t_prime * x[j, k + 1, t_prime] for t_prime in range(num_stages))`. -/
def seqLhs (x : ℕ × ℕ × ℕ → ℚ) (j k : ℕ) : ℚ :=
  ((List.range numStages2).map fun tp : ℕ => (tp : ℚ) * x (j, k + 1, tp)).sum

/-- `quicksum((t + 1) * x[j, k, t] for t in range(num_stages))` — the
generator's `t` shadows the enclosing loop's `t`. -/
def seqRhs (x : ℕ × ℕ × ℕ → ℚ) (j k : ℕ) : ℚ :=
  ((List.range numStages2).map fun t : ℕ => ((t : ℚ) + 1) * x (j, k, t)).sum

/-- Syntax of one emitted `seq_{j}_{k}` constraint: the coefficient of each
`x[j, k+1, t']` on the left and of each `x[j, k, t]` on the right.  Built
from the loop body, whose expression does not mention the outer stage loop
variable (it is shadowed inside both `quicksum` generators). -/
structure SeqCon where
  j : ℕ
  k : ℕ
  lhsCoefs : List (ℕ × ℚ)
  rhsCoefs : List (ℕ × ℚ)
deriving DecidableEq, Repr

/-- The constraint the loop body emits at outer stage `t` (unused: shadowed). -/
def seqConAt (j k t : ℕ) : SeqCon :=
  ⟨j, k, (List.range numStages2).map fun tp => (tp, (tp : ℚ)),
   (List.range numStages2).map fun t => (t, (t : ℚ) + 1)⟩

/-- All constraints the `for t in range(num_stages)` loop emits for one
consecutive operation pair `(k, k+1)` of job `j` (`stage 2.py` lines 40–49). -/
def stage2SeqConsFor (j k : ℕ) : List SeqCon :=
  (List.range numStages2).map fun t => seqConAt j k t

/-- The sequencing constraints of `stage 2.py` as emitted: one copy per
outer stage `t`. -/
def stage2SeqEmitted (J : Jobs) (x : ℕ × ℕ × ℕ → ℚ) : Prop :=
  ∀ jr ∈ J, ∀ k ∈ List.range (jr.2.length - 1), ∀ t ∈ List.range numStages2,
    seqLhs x jr.1 k ≥ seqRhs x jr.1 k

/-- The sequencing constraints emitted once per consecutive operation pair. -/
def stage2SeqOnce (J : Jobs) (x : ℕ × ℕ × ℕ → ℚ) : Prop :=
  ∀ jr ∈ J, ∀ k ∈ List.range (jr.2.length - 1),
    seqLhs x jr.1 k ≥ seqRhs x jr.1 k

/-- The output loop of `stage 2.py` (lines 83–88): for every job, operation
and stage whose binary exceeds `0.5`, one line with the derived start time
`t * p`; no status check guards it. -/
def stage2Extract (v : ℕ × ℕ × ℕ → ℚ) : List (ℕ × ℕ × ℕ × ℚ) :=
  jobs2.flatMap fun jr => (List.range jr.2.length).flatMap fun k =>
    (List.range numStages2).filterMap fun t =>
      if v (jr.1, k, t) > 0.5 then some (jr.1, k, t, (t : ℚ) * (jr.2.getD k (0, 0)).2)
      else none

/-- What `stage 2.py` does after the solve: prints unconditionally. -/
def stage2Report (st : GStatus) (v : ℕ × ℕ × ℕ → ℚ) : Except GStatus (List (ℕ × ℕ × ℕ × ℚ)) :=
  Except.ok (stage2Extract v)

/-! ### `stage 3.py` — Strategy C: stage-indexed machine-availability recursion -/

/-- The `routes` dictionary of `stage 3.py`. -/
def routes3 : Jobs :=
  [(1, [(5, 0.65), (3, 0.514), (7, 0.64), (2, 0.202), (1, 0.202), (4, 0.24), (6, 0.29)]),
   (2, [(3, 0.722), (2, 0.338), (1, 0.242), (8, 0.242), (7, 0.2), (4, 0.2), (6, 0.338), (5, 0.578)]),
   (3, [(2, 0.089), (6, 0.117), (1, 0.185), (3, 0.485), (5, 0.185), (8, 0.369), (4, 0.117), (7, 0.089)]),
   (4, [(6, 0.061), (2, 0.061), (5, 0.265), (3, 0.025), (1, 0.013), (4, 0.025)]),
   (5, [(5, 0.392), (6, 0.128), (2, 0.05), (3, 0.128), (1, 0.072), (4, 0.072)]),
   (6, [(2, 0.02), (5, 0.244), (4, 0.052), (3, 0.052), (1, 0.052), (6, 0.01)]),
   (7, [(5, 0.269), (4, 0.185), (6, 0.06), (2, 0.065), (1, 0.029), (7, 0.029), (3, 0.017)]),
   (8, [(3, 0.074), (5, 0.074), (2, 0.034), (1, 0.034), (4, 0.29), (6, 0.02)])]

/-- `K = sum(len(ops) for ops in routes.values())` in `stage 3.py`. -/
def K3 : ℕ := totalOps routes3

/-- A valuation of the `stage 3.py` decision variables. -/
structure Sol3 where
  Theta : ℕ → Machine → ℚ
  eta : ℕ → JobId × ℕ → ℚ
  Cmax : ℚ

/-- `quicksum(routes[i][t][1] * eta[k, i, t] for (i, t) in ops if routes[i][t][0] == m)`
— the duration-weighted load machine `m` picks up at stage `k` (the same
expression appears in the Theta recursions of `stage 3.py` and `stage 4.py`). -/
def stageLoad (R : Jobs) (η : ℕ → JobId × ℕ → ℚ) (k : ℕ) (m : Machine) : ℚ :=
  (((opsList R).filter fun it => mach R it.1 it.2 == m).map fun it =>
    dur R it.1 it.2 * η k it).sum

/-- Constraint (1) of `stage 3.py`: one operation scheduled per stage. -/
def stage3OnePerStage (R : Jobs) (s : Sol3) : Prop :=
  ∀ k ∈ List.range (totalOps R), ((opsList R).map fun it => s.eta k it).sum = 1

/-- Constraint (2) of `stage 3.py`: each operation executed exactly once. -/
def stage3OncePerOp (R : Jobs) (s : Sol3) : Prop :=
  ∀ it ∈ opsList R, ((List.range (totalOps R)).map fun k => s.eta k it).sum = 1

/-- Constraint (3) of `stage 3.py`: the machine-availability recursion. -/
def stage3ThetaRec (R : Jobs) (s : Sol3) : Prop :=
  ∀ k ∈ List.range (totalOps R), ∀ m ∈ machinesOf R,
    s.Theta (k + 1) m ≥ s.Theta k m + stageLoad R s.eta k m

/-- Constraint (4) of `stage 3.py`: the makespan bounds. -/
def stage3Makespan (R : Jobs) (s : Sol3) : Prop :=
  ∀ it ∈ opsList R, s.Cmax ≥ s.Theta (totalOps R) (mach R it.1 it.2)

/-- Constraint (5) of `stage 3.py` (lines 152–159): for each job, each
operation index `t` from `1`, and each stage `k2`, the cumulative sum of the
predecessor's indicators through `k2` dominates the successor's indicator. -/
def stage3Prec (R : Jobs) (s : Sol3) : Prop :=
  ∀ ir ∈ R, ∀ t ∈ List.range' 1 (ir.2.length - 1), ∀ k2 ∈ List.range (totalOps R),
    ((List.range (k2 + 1)).map fun k1 => s.eta k1 (ir.1, t - 1)).sum ≥ s.eta k2 (ir.1, t)

/-- Variable domains of `stage 3.py`: `eta` binary, `Theta` and `Cmax`
nonnegative (their declared lower bounds). -/
def stage3Domain (R : Jobs) (s : Sol3) : Prop :=
  (∀ k ∈ List.range (totalOps R), ∀ it ∈ opsList R, s.eta k it = 0 ∨ s.eta k it = 1) ∧
  (∀ k ∈ List.range (totalOps R + 1), ∀ m ∈ machinesOf R, 0 ≤ s.Theta k m) ∧
  0 ≤ s.Cmax

/-- The full constraint set of `stage 3.py`. -/
def stage3Feasible (R : Jobs) (s : Sol3) : Prop :=
  stage3Domain R s ∧ stage3OnePerStage R s ∧ stage3OncePerOp R s ∧
  stage3ThetaRec R s ∧ stage3Makespan R s ∧ stage3Prec R s

/-- The precedence constraint family as §4.4 (Strategy C) of the design
document words it: for every later stage `k2`, the cumulative placement
count of the predecessor through `k2` is at least the successor's indicator
at `k2`. -/
def stage3PrecSpec (R : Jobs) (s : Sol3) : Prop :=
  ∀ ir ∈ R, ∀ t : ℕ, 1 ≤ t → t < ir.2.length → ∀ k2 : ℕ, k2 < totalOps R →
    s.eta k2 (ir.1, t) ≤ ∑ k1 ∈ Finset.range (k2 + 1), s.eta k1 (ir.1, t - 1)

/-- One line of the schedule display of `stage 3.py`. -/
structure Entry3 where
  stage : ℕ
  job : JobId
  op : ℕ
  onMach : Machine
  ptime : ℚ
deriving DecidableEq, Repr

/-- The schedule display loop of `stage 3.py` (lines 180–187): one line per
`(stage, operation)` whose solved indicator exceeds `0.5`; no uniqueness
validation of any kind. -/
def stage3Extract (R : Jobs) (v : ℕ → JobId × ℕ → ℚ) : List Entry3 :=
  (List.range (totalOps R)).flatMap fun k =>
    (opsList R).filterMap fun it =>
      if v k it > 0.5 then some ⟨k, it.1, it.2, mach R it.1 it.2, dur R it.1 it.2⟩
      else none

/-- What `stage 3.py` does after the solve: extracts only when the status is
`OPTIMAL`, otherwise reports the status. -/
def stage3Report (R : Jobs) (st : GStatus) (v : ℕ → JobId × ℕ → ℚ) :
    Except GStatus (List Entry3) :=
  if st = GStatus.optimal then Except.ok (stage3Extract R v) else Except.error st

/-- How many stages place operation `it` with an indicator above `0.5`. -/
def truthyCount (R : Jobs) (v : ℕ → JobId × ℕ → ℚ) (it : JobId × ℕ) : ℕ :=
  ((List.range (totalOps R)).filter fun k => decide (v k it > 0.5)).length

/-! ### `stage 4.py` — Strategy D: exact Big-M precedence with waiting -/

/-- The `routes` dictionary of `stage 4.py`. -/
def routes4 : Jobs := [(1, [(1, 3), (2, 2)]), (2, [(2, 2), (1, 4)])]

/-- `K = sum(len(ops) for ops in routes.values())` in `stage 4.py`. -/
def K4 : ℕ := totalOps routes4

/-- `S = K` — the number of stage slots of `stage 4.py`. -/
def S4 : ℕ := K4

/-- `M = total_proc` — the Big-M value of `stage 4.py` (lines 216–217). -/
def M4 (R : Jobs) : ℚ := totalDur R

/-- A valuation of the `stage 4.py` decision variables. -/
structure Sol4 where
  Theta : ℕ → Machine → ℚ
  eta : ℕ → JobId × ℕ → ℚ
  Cmax : ℚ
  W : JobId × ℕ → ℚ
  Cjob : JobId → ℚ

/-- `Theta[0, m] == 0` for every machine. -/
def stage4Theta0 (R : Jobs) (s : Sol4) : Prop :=
  ∀ m ∈ machinesOf R, s.Theta 0 m = 0

/-- Per-stage, per-machine capacity of `stage 4.py`. -/
def stage4Cap (R : Jobs) (s : Sol4) : Prop :=
  ∀ k ∈ List.range (totalOps R), ∀ m ∈ machinesOf R,
    (((opsList R).filter fun it => mach R it.1 it.2 == m).map fun it => s.eta k it).sum ≤ 1

/-- Each operation executed exactly once. -/
def stage4Once (R : Jobs) (s : Sol4) : Prop :=
  ∀ it ∈ opsList R, ((List.range (totalOps R)).map fun k => s.eta k it).sum = 1

/-- The machine-availability recursion of `stage 4.py`. -/
def stage4ThetaRec (R : Jobs) (s : Sol4) : Prop :=
  ∀ k ∈ List.range (totalOps R), ∀ m ∈ machinesOf R,
    s.Theta (k + 1) m ≥ s.Theta k m + stageLoad R s.eta k m

/-- The makespan lower bounds of `stage 4.py`. -/
def stage4Makespan (R : Jobs) (s : Sol4) : Prop :=
  ∀ m ∈ machinesOf R, s.Cmax ≥ s.Theta (totalOps R) m

/-- The exact Big-M precedence loop of `stage 4.py` (lines 286–295): for
every job, every consecutive operation pair, and every stage pair
`(k1, k2)`. -/
def stage4Prec (R : Jobs) (s : Sol4) : Prop :=
  ∀ ir ∈ R, ∀ t ∈ List.range (ir.2.length - 1),
    ∀ k1 ∈ List.range (totalOps R), ∀ k2 ∈ List.range (totalOps R),
      s.Theta k2 (mach R ir.1 (t + 1)) +
        M4 R * (2 - s.eta k1 (ir.1, t) - s.eta k2 (ir.1, t + 1)) ≥
        s.Theta (k1 + 1) (mach R ir.1 t)

/-- The waiting-time linearization loop of `stage 4.py`. -/
def stage4Wait (R : Jobs) (s : Sol4) : Prop :=
  ∀ ir ∈ R, ∀ t ∈ List.range (ir.2.length - 1),
    ∀ k1 ∈ List.range (totalOps R), ∀ k2 ∈ List.range (totalOps R),
      s.W (ir.1, t) + M4 R * (2 - s.eta k1 (ir.1, t) - s.eta k2 (ir.1, t + 1)) ≥
        s.Theta k2 (mach R ir.1 (t + 1)) - s.Theta (k1 + 1) (mach R ir.1 t)

/-- The job-completion constraints of `stage 4.py`. -/
def stage4JobDone (R : Jobs) (s : Sol4) : Prop :=
  ∀ ir ∈ R,
    (∀ k ∈ List.range (totalOps R),
      s.Cjob ir.1 + M4 R * (1 - s.eta k (ir.1, ir.2.length - 1)) ≥
        s.Theta (k + 1) (mach R ir.1 (ir.2.length - 1))) ∧
    s.Cmax ≥ s.Cjob ir.1

/-- Variable domains of `stage 4.py`. -/
def stage4Domain (R : Jobs) (s : Sol4) : Prop :=
  (∀ k ∈ List.range (totalOps R), ∀ it ∈ opsList R, s.eta k it = 0 ∨ s.eta k it = 1) ∧
  (∀ k ∈ List.range (totalOps R + 1), ∀ m ∈ machinesOf R, 0 ≤ s.Theta k m) ∧
  (∀ ir ∈ R, ∀ t ∈ List.range (ir.2.length - 1), 0 ≤ s.W (ir.1, t)) ∧
  (∀ ir ∈ R, 0 ≤ s.Cjob ir.1) ∧
  0 ≤ s.Cmax

/-- The full constraint set of `stage 4.py`. -/
def stage4Feasible (R : Jobs) (s : Sol4) : Prop :=
  stage4Domain R s ∧ stage4Theta0 R s ∧ stage4Cap R s ∧ stage4Once R s ∧
  stage4ThetaRec R s ∧ stage4Makespan R s ∧ stage4Prec R s ∧ stage4Wait R s ∧
  stage4JobDone R s

/-- The exact precedence family as §4.4 (Strategy D) of the design document
words it: `Θ[k2, m2] + BigM·(2 − η[k1, op_t] − η[k2, op_{t+1}]) ≥ Θ[k1+1, m1]`
for every job, consecutive operation pair `(op_t on m1, op_{t+1} on m2)` and
stage pair `(k1, k2)`. -/
def stage4PrecSpec (R : Jobs) (s : Sol4) : Prop :=
  ∀ ir ∈ R, ∀ t : ℕ, t + 1 < ir.2.length → ∀ k1 : ℕ, k1 < totalOps R →
    ∀ k2 : ℕ, k2 < totalOps R →
      s.Theta k2 (ir.2.getD (t + 1) (0, 0)).1 +
        M4 R * (2 - s.eta k1 (ir.1, t) - s.eta k2 (ir.1, t + 1)) ≥
        s.Theta (k1 + 1) (ir.2.getD t (0, 0)).1

/-- Duration-weighted cumulative load of machine `m` over stages `< k` —
the least value `Theta[k, m]` can take under the recursion when it starts at
`0`. -/
def cumBusy (R : Jobs) (η : ℕ → JobId × ℕ → ℚ) (k : ℕ) (m : Machine) : ℚ :=
  ∑ j ∈ Finset.range k, stageLoad R η j m

/-- Total processing time routed to machine `m`. -/
def machineDur (R : Jobs) (m : Machine) : ℚ :=
  (((opsList R).filter fun it => mach R it.1 it.2 == m).map fun it => dur R it.1 it.2).sum

/-- The per-stage schedule display of `stage 4.py` (lines 351–361): for each
stage, the list of operations whose indicator exceeds `0.5`; no uniqueness
validation of any kind. -/
def stage4Extract (R : Jobs) (v : ℕ → JobId × ℕ → ℚ) :
    List (ℕ × List (JobId × ℕ × Machine × ℚ)) :=
  (List.range (totalOps R)).map fun k =>
    (k, (opsList R).filterMap fun it =>
      if v k it > 0.5 then some (it.1, it.2, mach R it.1 it.2, dur R it.1 it.2) else none)

/-- What `stage 4.py` does after the solve: extracts only when the status is
`OPTIMAL`, otherwise reports the status. -/
def stage4Report (R : Jobs) (st : GStatus) (v : ℕ → JobId × ℕ → ℚ) :
    Except GStatus (List (ℕ × List (JobId × ℕ × Machine × ℚ))) :=
  if st = GStatus.optimal then Except.ok (stage4Extract R v) else Except.error st

/-! ### Route-catalog construction and concrete valuations -/

/-- The error kind §7 of the design document assigns to invalid job data. -/
inductive BuildError where
  | malformedRoute
deriving DecidableEq

/-- The derived problem description each script builds from its `routes`
dictionary. -/
structure RouteCatalog where
  routes : Jobs
  jobIds : List JobId
  machines : List Machine
  K : ℕ

/-- Route-catalog construction as the scripts perform it (`stage 3.py`
lines 98–110 and the analogous lines of the other scripts): `jobs`,
`machines` and `K` are derived directly from the dictionary; no duration or
route validation of any kind is performed, so construction always succeeds. -/
def mkRouteCatalog (R : Jobs) : Except BuildError RouteCatalog :=
  Except.ok { routes := R, jobIds := R.map Prod.fst, machines := machinesOf R, K := totalOps R }

/-- Some job data with a negative duration. -/
def negDurRoutes : Jobs := [(1, [(1, -1)])]

/-- Some job data with an empty route. -/
def emptyRouteJobs : Jobs := [(1, [])]

/-- A route dictionary has a negative duration somewhere. -/
def hasNegDur (R : Jobs) : Prop := ∃ ir ∈ R, ∃ op ∈ ir.2, op.2 < 0

/-- A route dictionary has an empty route somewhere. -/
def hasEmptyRoute (R : Jobs) : Prop := ∃ ir ∈ R, ir.2 = []

/-- A one-job, one-operation instance. -/
def routesOne : Jobs := [(1, [(1, 1)])]

/-- A `stage 3.py`-feasible valuation for `routesOne` whose `Theta[0, 1]`
is `5`, not `0`. -/
def solOne : Sol3 where
  Theta := fun k _ => 5 + k
  eta := fun _ _ => 1
  Cmax := 6

/-- A one-job instance with two unit operations. -/
def routesTwo : Jobs := [(1, [(1, 1), (2, 1)])]

/-- The all-ones indicator valuation: every operation is "placed" at every
stage. -/
def vAllOnes : ℕ → JobId × ℕ → ℚ := fun _ _ => 1

/-- The all-zero indicator valuation. -/
def vAllZero : ℕ → JobId × ℕ → ℚ := fun _ _ => 0

instance instDecStage1Feasible (J : Jobs) (ms : List Machine) (M : ℚ) (s : Sol1) :
    Decidable (stage1Feasible J ms M s) := by
  unfold stage1Feasible DisjCon.holds
  infer_instance

instance instDecStage3Feasible (R : Jobs) (s : Sol3) : Decidable (stage3Feasible R s) := by
  unfold stage3Feasible stage3Domain stage3OnePerStage stage3OncePerOp stage3ThetaRec
    stage3Makespan stage3Prec stageLoad
  infer_instance

instance instDecStage4Feasible (R : Jobs) (s : Sol4) : Decidable (stage4Feasible R s) := by
  unfold stage4Feasible stage4Domain stage4Theta0 stage4Cap stage4Once stage4ThetaRec
    stage4Makespan stage4Prec stage4Wait stage4JobDone stageLoad
  infer_instance

instance instDecStage4Domain (R : Jobs) (s : Sol4) : Decidable (stage4Domain R s) := by
  unfold stage4Domain
  infer_instance

instance instDecStage4Once (R : Jobs) (s : Sol4) : Decidable (stage4Once R s) := by
  unfold stage4Once
  infer_instance

instance instDecHasNegDur (R : Jobs) : Decidable (hasNegDur R) := by
  unfold hasNegDur
  infer_instance

instance instDecHasEmptyRoute (R : Jobs) : Decidable (hasEmptyRoute R) := by
  unfold hasEmptyRoute
  infer_instance

/-- A `stage 4.py`-feasible valuation for its `routes`: stages `0..3`
schedule job 1 op 0 (M1), job 2 op 0 (M2), job 1 op 1 (M2), job 2 op 1 (M1)
in that order. -/
def sol4good : Sol4 where
  Theta := fun k m =>
    if m = 1 then ([0, 3, 3, 3, 7] : List ℚ).getD k 7
    else ([0, 0, 3, 5, 5] : List ℚ).getD k 5
  eta := fun k it =>
    if (k, it) ∈ ([(0, (1, 0)), (1, (2, 0)), (2, (1, 1)), (3, (2, 1))] :
        List (ℕ × (JobId × ℕ))) then 1 else 0
  Cmax := 7
  W := fun _ => 0
  Cjob := fun i => if i = 1 then 5 else 7

/-! ### Shared lemmas -/

theorem sumMapRange (f : ℕ → ℚ) (n : ℕ) :
    ((List.range n).map f).sum = ∑ i ∈ Finset.range n, f i := by
  induction n with
  | zero => simp
  | succ n ih =>
    rw [List.range_succ, List.map_append, List.sum_append, Finset.sum_range_succ, ih]
    simp

theorem sumSwapList {α : Type} (L : List α) (n : ℕ) (g : ℕ → α → ℚ) :
    ∑ j ∈ Finset.range n, (L.map fun a => g j a).sum
      = (L.map fun a => ∑ j ∈ Finset.range n, g j a).sum := by
  induction L with
  | nil => simp
  | cons hd tl ih => simp [Finset.sum_add_distrib, ih]

theorem lookup_eq_of_mem {R : Jobs} (h : (R.map Prod.fst).Nodup) {ir : JobId × List Op}
    (hir : ir ∈ R) : R.lookup ir.1 = some ir.2 := by
  induction R with
  | nil => cases hir
  | cons hd tl ih =>
    obtain ⟨k, v⟩ := hd
    simp only [List.map_cons, List.nodup_cons] at h
    rcases List.mem_cons.mp hir with he | hmem
    · rw [← he]
      simp [List.lookup]
    · have hne : (ir.1 == k) = false := by
        refine beq_eq_false_iff_ne.mpr fun he => ?_
        exact h.1 (he ▸ List.mem_map_of_mem Prod.fst hmem)
      simp only [List.lookup, hne]
      exact ih h.2 hmem

theorem routeOf_eq {R : Jobs} (h : (R.map Prod.fst).Nodup) {ir : JobId × List Op}
    (hir : ir ∈ R) : routeOf R ir.1 = ir.2 := by
  unfold routeOf
  rw [lookup_eq_of_mem h hir]
  rfl

theorem binary_nonneg {a : ℚ} (h : a = 0 ∨ a = 1) : 0 ≤ a := by
  rcases h with h | h <;> simp [h]

theorem stageLoad_nonneg (R : Jobs) (η : ℕ → JobId × ℕ → ℚ)
    (hdur : ∀ it ∈ opsList R, 0 ≤ dur R it.1 it.2) (k : ℕ)
    (hη : ∀ it ∈ opsList R, 0 ≤ η k it) (m : Machine) :
    0 ≤ stageLoad R η k m := by
  unfold stageLoad
  apply List.sum_nonneg
  intro q hq
  obtain ⟨it, hit, rfl⟩ := List.mem_map.mp hq
  have hit0 : it ∈ opsList R := List.mem_of_mem_filter hit
  exact mul_nonneg (hdur it hit0) (hη it hit0)

/-! ### Claim theorems -/

/-- Claim C2: the Strategy A model of `stage_1.py` on its instance (job 1 =
`[(M1,3),(M2,2)]`, job 2 = `[(M2,2),(M1,1)]`, `bigM = 1000`) has minimum
makespan exactly `5`: the value is attained by a feasible point, and every
feasible point has makespan at least `5`. -/
theorem claim_C2 :
    (∃ s : Sol1, stage1Feasible jobs1 machines1 bigM1 s ∧ s.Cmax = 5) ∧
    (∀ s : Sol1, stage1Feasible jobs1 machines1 bigM1 s → 5 ≤ s.Cmax) := by
  constructor
  · exact ⟨solA, by decide, rfl⟩
  · intro s hs
    obtain ⟨hpos, hc0, hdef, hord, hdisj, hmk⟩ := hs
    have h10 : s.C (1, 0) = s.S (1, 0) + 3 := by
      simpa using hdef (1, [(1, 3), (2, 2)]) (by decide) (0, (1, 3)) (by decide)
    have h11 : s.C (1, 1) = s.S (1, 1) + 2 := by
      simpa using hdef (1, [(1, 3), (2, 2)]) (by decide) (1, (2, 2)) (by decide)
    have hord1 : s.S (1, 1) ≥ s.C (1, 0) := by
      simpa using hord (1, [(1, 3), (2, 2)]) (by decide) 0 (by decide)
    have hmk1 : s.Cmax ≥ s.C (1, 1) := by
      simpa using hmk (1, [(1, 3), (2, 2)]) (by decide)
    have hS0 : 0 ≤ s.S (1, 0) := by
      simpa using (hpos (1, [(1, 3), (2, 2)]) (by decide) 0 (by decide)).1
    linarith

/-- Witness for C2: the lower bound applied to the concrete schedule. -/
theorem claim_C2_witness : 5 ≤ solA.Cmax :=
  claim_C2.2 solA (by decide)

/-- Claim C6 (amended): `stage 3.py` and `stage 4.py` use exactly
`K = Σ |route(job)|` stage slots (54 and 4 on their data), but `stage 2.py`
uses the hardcoded `num_stages = 10` while its total operation count is 6. -/
theorem claim_C6 :
    K3 = totalOps routes3 ∧ totalOps routes3 = 54 ∧
    K4 = totalOps routes4 ∧ S4 = K4 ∧ totalOps routes4 = 4 ∧
    numStages2 = 10 ∧ totalOps jobs2 = 6 :=
  ⟨rfl, by decide, rfl, rfl, by decide, rfl, by decide⟩

/-- Counterexample for C6: in Strategy B the number of stage slots is not the
total operation count. -/
theorem claim_C6_cex : ¬ (numStages2 = totalOps jobs2) := by decide

/-- Claim C7 (amended): route-catalog construction as the scripts perform it
is total — it derives `jobs`, `machines` and `K` and never fails, accepting
both a negative duration and an empty route. -/
theorem claim_C7 :
    (∀ R : Jobs, mkRouteCatalog R =
      Except.ok ⟨R, R.map Prod.fst, machinesOf R, totalOps R⟩) ∧
    hasNegDur negDurRoutes ∧ (mkRouteCatalog negDurRoutes).isOk = true ∧
    hasEmptyRoute emptyRouteJobs ∧ (mkRouteCatalog emptyRouteJobs).isOk = true :=
  ⟨fun _ => rfl, by decide, rfl, by decide, rfl⟩

/-- Counterexample for C7: construction does not fail on malformed data —
the negative-duration input is accepted. -/
theorem claim_C7_cex :
    ¬ (∀ R : Jobs, (hasNegDur R ∨ hasEmptyRoute R) → (mkRouteCatalog R).isOk = false) := by
  intro h
  exact absurd (h negDurRoutes (Or.inl (by decide))) (by decide)

/-- Claim C8 (amended): `stage 3.py` and `stage 4.py` extract a schedule only
when the status is `OPTIMAL` and otherwise report the status, but
`stage_1.py` and `stage 2.py` read the solved values unconditionally, for
every status. -/
theorem claim_C8 :
    (∀ (R : Jobs) (st : GStatus) (v : ℕ → JobId × ℕ → ℚ), st ≠ GStatus.optimal →
      stage3Report R st v = Except.error st) ∧
    (∀ (R : Jobs) (v : ℕ → JobId × ℕ → ℚ),
      stage3Report R GStatus.optimal v = Except.ok (stage3Extract R v)) ∧
    (∀ (R : Jobs) (st : GStatus) (v : ℕ → JobId × ℕ → ℚ), st ≠ GStatus.optimal →
      stage4Report R st v = Except.error st) ∧
    (∀ (R : Jobs) (v : ℕ → JobId × ℕ → ℚ),
      stage4Report R GStatus.optimal v = Except.ok (stage4Extract R v)) ∧
    (∀ (st : GStatus) (vS vC : JobId × ℕ → ℚ),
      stage1Report st vS vC = Except.ok (stage1Extract vS vC)) ∧
    (∀ (st : GStatus) (v : ℕ × ℕ × ℕ → ℚ),
      stage2Report st v = Except.ok (stage2Extract v)) := by
  refine ⟨?_, fun R v => rfl, ?_, fun R v => rfl, fun st vS vC => rfl, fun st v => rfl⟩
  · intro R st v hst
    simp [stage3Report, hst]
  · intro R st v hst
    simp [stage4Report, hst]

/-- Counterexample for C8: `stage_1.py` extracts a schedule even when the
status indicates infeasibility. -/
theorem claim_C8_cex :
    ¬ (∀ (st : GStatus) (vS vC : JobId × ℕ → ℚ),
        st = GStatus.infeasible → (stage1Report st vS vC).isOk = false) := by
  intro h
  exact absurd (h GStatus.infeasible (fun _ => 0) (fun _ => 0) rfl) (by decide)

/-- Claim C9 (amended): the display loops perform no validation — extraction
from an optimal solve always succeeds, emitting one entry per `(stage,
operation)` pair whose indicator exceeds `0.5`: an operation with two truthy
indicators appears twice, one with none never appears, and no error of any
kind is raised. -/
theorem claim_C9 :
    (∀ (R : Jobs) (v : ℕ → JobId × ℕ → ℚ),
      stage3Report R GStatus.optimal v = Except.ok (stage3Extract R v)) ∧
    (∀ (R : Jobs) (v : ℕ → JobId × ℕ → ℚ),
      stage4Report R GStatus.optimal v = Except.ok (stage4Extract R v)) ∧
    ((stage3Extract routesTwo vAllOnes).filter
      (fun e => decide (e.job = 1 ∧ e.op = 0))).length = 2 ∧
    truthyCount routesTwo vAllOnes (1, 0) = 2 ∧
    stage3Extract routesTwo vAllZero = [] :=
  ⟨fun _ _ => rfl, fun _ _ => rfl, by decide, by decide, by decide⟩

/-- Counterexample for C9: a successful extraction does not force exactly one
truthy indicator per operation — the all-ones valuation extracts fine while
operation `(1, 0)` has two truthy indicators. -/
theorem claim_C9_cex :
    ¬ (∀ v : ℕ → JobId × ℕ → ℚ,
        (stage3Report routesTwo GStatus.optimal v).isOk = true →
        ∀ it ∈ opsList routesTwo, truthyCount routesTwo v it = 1) := by
  intro h
  have h2 := h vAllOnes rfl (1, 0) (by decide)
  rw [show truthyCount routesTwo vAllOnes (1, 0) = 2 from by decide] at h2
  exact absurd h2 (by decide)

/-- Claim C10: the `stage 2.py` sequencing loop emits, for each consecutive
operation pair, `num_stages` identical copies of one inequality (the outer
stage variable is shadowed inside both `quicksum` generators), and the
emitted set is equivalent to emitting the constraint once per pair. -/
theorem claim_C10 :
    (∀ j k : ℕ, stage2SeqConsFor j k = List.replicate numStages2 (seqConAt j k 0)) ∧
    (∀ (J : Jobs) (x : ℕ × ℕ × ℕ → ℚ), stage2SeqEmitted J x ↔ stage2SeqOnce J x) := by
  constructor
  · intro j k
    refine List.eq_replicate_iff.mpr ⟨by simp [stage2SeqConsFor], ?_⟩
    intro c hc
    simp only [stage2SeqConsFor, List.mem_map, List.mem_range] at hc
    obtain ⟨t, ht, rfl⟩ := hc
    rfl
  · intro J x
    constructor
    · intro h jr hjr k hk
      exact h jr hjr k hk 0 (by decide)
    · intro h jr hjr k hk t ht
      exact h jr hjr k hk

/-- Claim C4: the `stage 3.py` precedence loop emits, for every job, every
consecutive operation pair `(t−1, t)` with `t ≥ 1`, and every stage `k2`,
exactly the cumulative constraint
`Σ_{k1 ≤ k2} η[k1, job, t−1] ≥ η[k2, job, t]` of the design document. -/
theorem claim_C4 : ∀ (R : Jobs) (s : Sol3), stage3Prec R s ↔ stage3PrecSpec R s := by
  intro R s
  constructor
  · intro h ir hir t ht1 ht2 k2 hk2
    have hmem : t ∈ List.range' 1 (ir.2.length - 1) := by
      rw [List.mem_range'_1]
      omega
    have h2 := h ir hir t hmem k2 (List.mem_range.mpr hk2)
    rw [sumMapRange] at h2
    exact h2
  · intro h ir hir t hmem k2 hk2
    rw [List.mem_range'_1] at hmem
    have h2 := h ir hir t hmem.1 (by omega) k2 (List.mem_range.mp hk2)
    rw [sumMapRange]
    exact h2

/-- Claim C5 (amended): in both formulations that declare `Θ` the constraint
set entails `Θ[k+1,m] ≥ Θ[k,m]` (given nonnegative durations), and
`stage 4.py` forces `Θ[0,m] = 0`; `stage 3.py`, however, only bounds
`Θ[0,m]` below by `0` and does not force it to `0`. -/
theorem claim_C5 :
    (∀ (R : Jobs) (s : Sol3), (∀ it ∈ opsList R, 0 ≤ dur R it.1 it.2) →
      stage3Feasible R s → ∀ k ∈ List.range (totalOps R), ∀ m ∈ machinesOf R,
        s.Theta k m ≤ s.Theta (k + 1) m) ∧
    (∀ (R : Jobs) (s : Sol4), (∀ it ∈ opsList R, 0 ≤ dur R it.1 it.2) →
      stage4Feasible R s → ∀ k ∈ List.range (totalOps R), ∀ m ∈ machinesOf R,
        s.Theta k m ≤ s.Theta (k + 1) m) ∧
    (∀ (R : Jobs) (s : Sol4), stage4Feasible R s → ∀ m ∈ machinesOf R, s.Theta 0 m = 0) := by
  refine ⟨?_, ?_, ?_⟩
  · intro R s hdur hf k hk m hm
    obtain ⟨⟨hbin, -, -⟩, -, -, hrec, -, -⟩ := hf
    have hη : ∀ it ∈ opsList R, 0 ≤ s.eta k it := fun it hit => binary_nonneg (hbin k hk it hit)
    have hload := stageLoad_nonneg R s.eta hdur k hη m
    have h2 := hrec k hk m hm
    linarith
  · intro R s hdur hf k hk m hm
    obtain ⟨⟨hbin, -, -, -, -⟩, -, -, -, hrec, -, -, -, -⟩ := hf
    have hη : ∀ it ∈ opsList R, 0 ≤ s.eta k it := fun it hit => binary_nonneg (hbin k hk it hit)
    have hload := stageLoad_nonneg R s.eta hdur k hη m
    have h2 := hrec k hk m hm
    linarith
  · intro R s hf m hm
    obtain ⟨-, hz, -, -, -, -, -, -, -⟩ := hf
    exact hz m hm

/-- Witness for C5: the monotonicity step on a concrete `stage 3.py`-feasible
point and the forced `Θ[0, 1] = 0` on a concrete `stage 4.py`-feasible
point. -/
theorem claim_C5_witness :
    solOne.Theta 0 1 ≤ solOne.Theta 1 1 ∧ sol4good.Theta 0 1 = 0 :=
  ⟨claim_C5.1 routesOne solOne (by decide) (by decide) 0 (by decide) 1 (by decide),
   claim_C5.2.2 routes4 sol4good (by decide) 1 (by decide)⟩

/-- Counterexample for C5: the `stage 3.py` constraint set admits a feasible
point with `Θ[0, 1] = 5 ≠ 0`, so it does not force `Θ[0, m] = 0`. -/
theorem claim_C5_cex :
    ¬ (∀ (R : Jobs) (s : Sol3), stage3Feasible R s →
        ∀ m ∈ machinesOf R, s.Theta 0 m = 0) := by
  intro h
  have h2 := h routesOne solOne (by decide) 1 (by decide)
  norm_num [solOne] at h2

theorem cumBusy_le_machineDur (R : Jobs) (η : ℕ → JobId × ℕ → ℚ)
    (hη : ∀ k ∈ List.range (totalOps R), ∀ it ∈ opsList R, 0 ≤ η k it)
    (honce : ∀ it ∈ opsList R, ((List.range (totalOps R)).map fun k => η k it).sum = 1)
    (hdur : ∀ it ∈ opsList R, 0 ≤ dur R it.1 it.2)
    (k : ℕ) (hk : k ≤ totalOps R) (m : Machine) :
    cumBusy R η k m ≤ machineDur R m := by
  unfold cumBusy stageLoad machineDur
  rw [sumSwapList]
  apply List.sum_le_sum
  intro it hit
  have hit0 : it ∈ opsList R := List.mem_of_mem_filter hit
  have hsum : ∑ j ∈ Finset.range k, η j it ≤ 1 := by
    have hfull : ∑ j ∈ Finset.range (totalOps R), η j it = 1 := by
      rw [← sumMapRange]
      exact honce it hit0
    calc ∑ j ∈ Finset.range k, η j it
        ≤ ∑ j ∈ Finset.range (totalOps R), η j it := by
          refine Finset.sum_le_sum_of_subset_of_nonneg (Finset.range_subset.mpr hk) ?_
          intro j hj _
          exact hη j (List.mem_range.mpr (Finset.mem_range.mp hj)) it hit0
      _ = 1 := hfull
  calc ∑ j ∈ Finset.range k, dur R it.1 it.2 * η j it
      = dur R it.1 it.2 * ∑ j ∈ Finset.range k, η j it := by rw [Finset.mul_sum]
    _ ≤ dur R it.1 it.2 * 1 := mul_le_mul_of_nonneg_left hsum (hdur it hit0)
    _ = dur R it.1 it.2 := mul_one _

/-- Claim C3: the `stage 4.py` exact-precedence loop emits the constraint
`Θ[k2,m2] + M·(2 − η[k1,op_t] − η[k2,op_{t+1}]) ≥ Θ[k1+1,m1]` for every job,
consecutive pair and stage pair; its `M` is the sum of all operation
durations (`11` on its data); and that value strictly exceeds every value the
machine-availability recursion needs at `Θ[k1+1, m1]` — the cumulative
duration-weighted load of any machine under any binary assignment placing
each operation once. -/
theorem claim_C3 :
    (∀ R : Jobs, (R.map Prod.fst).Nodup →
      ∀ s : Sol4, stage4Prec R s ↔ stage4PrecSpec R s) ∧
    M4 routes4 = totalDur routes4 ∧ totalDur routes4 = 11 ∧
    (∀ s : Sol4, stage4Domain routes4 s → stage4Once routes4 s →
      ∀ k1 ∈ List.range S4, ∀ m ∈ machinesOf routes4,
        cumBusy routes4 s.eta (k1 + 1) m < M4 routes4) := by
  refine ⟨?_, rfl, by decide, ?_⟩
  · intro R hnd s
    have hm1 : ∀ ir ∈ R, ∀ t : ℕ, mach R ir.1 t = (ir.2.getD t (0, 0)).1 := by
      intro ir hir t
      unfold mach
      rw [routeOf_eq hnd hir]
    constructor
    · intro h ir hir t ht k1 hk1 k2 hk2
      have h2 := h ir hir t (by rw [List.mem_range]; omega) k1 (List.mem_range.mpr hk1)
        k2 (List.mem_range.mpr hk2)
      rw [hm1 ir hir t, hm1 ir hir (t + 1)] at h2
      exact h2
    · intro h ir hir t ht k1 hk1 k2 hk2
      rw [List.mem_range] at ht hk1 hk2
      have h2 := h ir hir t (by omega) k1 hk1 k2 hk2
      rw [hm1 ir hir t, hm1 ir hir (t + 1)]
      exact h2
  · intro s hdom honce k1 hk1 m hm
    obtain ⟨hbin, -, -, -, -⟩ := hdom
    have hηnn : ∀ k ∈ List.range (totalOps routes4), ∀ it ∈ opsList routes4, 0 ≤ s.eta k it :=
      fun k hk it hit => binary_nonneg (hbin k hk it hit)
    have htot : totalOps routes4 = 4 := by decide
    have hs4 : S4 = 4 := by decide
    rw [List.mem_range] at hk1
    have hb := cumBusy_le_machineDur routes4 s.eta hηnn honce
      (by decide) (k1 + 1) (by omega) m
    have hlt : machineDur routes4 m < M4 routes4 :=
      (by decide : ∀ mm ∈ machinesOf routes4, machineDur routes4 mm < M4 routes4) m hm
    linarith

/-- Witness for C3: the Big-M bound evaluated on the concrete feasible
point. -/
theorem claim_C3_witness :
    cumBusy routes4 sol4good.eta 1 1 < M4 routes4 :=
  claim_C3.2.2.2 sol4good (by decide) (by decide) 0 (by decide) 1 (by decide)

theorem countP_flatMap {α β : Type} (l : List α) (f : α → List β) (p : β → Bool) :
    (l.flatMap f).countP p = (l.map fun a => (f a).countP p).sum := by
  rw [List.flatMap_def, List.countP_flatten, List.map_map]
  rfl

theorem countP_eq_one_of_nodup_mem {α : Type} [DecidableEq α] {l : List α} (hnd : l.Nodup)
    {a : α} (ha : a ∈ l) : l.countP (fun b => decide (b = a)) = 1 := by
  induction l with
  | nil => cases ha
  | cons hd tl ih =>
    rw [List.countP_cons]
    rcases List.mem_cons.mp ha with he | hmem
    · have hni : a ∉ tl := by
        rw [he]
        exact (List.nodup_cons.mp hnd).1
      have hz : tl.countP (fun b => decide (b = a)) = 0 := by
        rw [List.countP_eq_zero]
        intro b hb hba
        rw [decide_eq_true_eq] at hba
        exact hni (hba ▸ hb)
      rw [hz, he]
      simp
    · have h1 := ih (List.nodup_cons.mp hnd).2 hmem
      have h2 : (decide (hd = a)) = false := by
        rw [decide_eq_false_iff_not]
        rintro rfl
        exact (List.nodup_cons.mp hnd).1 hmem
      simp [h1, h2]

theorem sum_indicator_range (n u : ℕ) :
    ((List.range n).map fun a => if a = u then (1 : ℕ) else 0).sum
      = if u < n then 1 else 0 := by
  induction n with
  | zero => simp
  | succ n ih =>
    rw [List.range_succ, List.map_append, List.sum_append, ih]
    simp only [List.map_cons, List.map_nil, List.sum_cons, List.sum_nil, Nat.add_zero]
    by_cases h1 : u < n
    · have h2 : n ≠ u := by omega
      have h3 : u < n + 1 := by omega
      simp [h1, h2, h3]
    · by_cases h2 : n = u
      · have h3 : u < n + 1 := by omega
        simp [h1, h2, h3]
      · have h3 : ¬ u < n + 1 := by omega
        simp [h1, h2, h3]

theorem count_pairs_lemma {β : Type} (n : ℕ) (F : ℕ → ℕ → β) (p : β → Bool)
    (u v : ℕ) (hu : u < n) (huv : u < v) (hv : v < n)
    (hiff : ∀ a b : ℕ, a < n → a < b → b < n → (p (F a b) = true ↔ (a = u ∧ b = v))) :
    ((List.range n).flatMap fun a =>
      (List.range' (a + 1) (n - (a + 1))).map (F a)).countP p = 1 := by
  rw [countP_flatMap]
  have hpt : ∀ a ∈ List.range n,
      ((List.range' (a + 1) (n - (a + 1))).map (F a)).countP p
        = if a = u then 1 else 0 := by
    intro a ha
    rw [List.mem_range] at ha
    rw [List.countP_map]
    by_cases hau : a = u
    · subst hau
      rw [if_pos rfl]
      have hcg : ∀ b ∈ List.range' (a + 1) (n - (a + 1)),
          (p ∘ F a) b = true ↔ (decide (b = v)) = true := by
        intro b hb
        rw [List.mem_range'_1] at hb
        simp only [Function.comp_apply, decide_eq_true_eq]
        rw [hiff a b ha (by omega) (by omega)]
        constructor
        · rintro ⟨-, h⟩
          exact h
        · intro h
          exact ⟨rfl, h⟩
      rw [List.countP_congr hcg]
      exact countP_eq_one_of_nodup_mem (List.nodup_range' _ _)
        (List.mem_range'_1.mpr ⟨by omega, by omega⟩)
    · rw [if_neg hau]
      rw [List.countP_eq_zero]
      intro b hb
      rw [List.mem_range'_1] at hb
      intro hpb
      simp only [Function.comp_apply] at hpb
      exact hau ((hiff a b ha (by omega) (by omega)).mp hpb).1
  rw [List.map_congr_left hpt, sum_indicator_range, if_pos hu]

theorem getD_eq_iff_index (ops : List (JobId × ℕ)) (hnd : ops.Nodup)
    (w : Fin ops.length) {a : ℕ} (ha : a < ops.length) :
    ops.getD a (0, 0) = ops.get w ↔ a = w.val := by
  rw [List.getD_eq_get _ _ ha, hnd.get_inj_iff]
  constructor
  · intro h
    exact congrArg Fin.val h
  · intro h
    exact Fin.ext h

theorem pairMatch_iff (ops : List (JobId × ℕ)) (hnd : ops.Nodup)
    (u v : Fin ops.length) (huv : u.val < v.val)
    {a b : ℕ} (hab : a < b) (hb : b < ops.length) :
    (DisjPair.mk (ops.getD a (0, 0)) (ops.getD b (0, 0)) = DisjPair.mk (ops.get u) (ops.get v) ∨
     DisjPair.mk (ops.getD a (0, 0)) (ops.getD b (0, 0)) = DisjPair.mk (ops.get v) (ops.get u))
      ↔ (a = u.val ∧ b = v.val) := by
  have ha : a < ops.length := lt_trans hab hb
  constructor
  · rintro (he | he) <;> rw [DisjPair.mk.injEq] at he
    · exact ⟨(getD_eq_iff_index ops hnd u ha).mp he.1, (getD_eq_iff_index ops hnd v hb).mp he.2⟩
    · have h1 := (getD_eq_iff_index ops hnd v ha).mp he.1
      have h2 := (getD_eq_iff_index ops hnd u hb).mp he.2
      omega
  · rintro ⟨rfl, rfl⟩
    left
    rw [DisjPair.mk.injEq]
    exact ⟨(getD_eq_iff_index ops hnd u ha).mpr rfl, (getD_eq_iff_index ops hnd v hb).mpr rfl⟩

theorem machineOps_nodup (J : Jobs) (h : (J.map Prod.fst).Nodup) (m : Machine) :
    (machineOps J m).Nodup := by
  unfold machineOps
  rw [List.nodup_flatMap]
  constructor
  · intro ir _
    have h1 : ((ir.2.enum.filter fun ke => ke.2.1 == m).map Prod.fst).Nodup :=
      (List.nodup_enum_map_fst ir.2).sublist ((List.filter_sublist _).map Prod.fst)
    have h2 : ((ir.2.enum.filter fun ke => ke.2.1 == m).map fun ke => (ir.1, ke.1))
        = ((ir.2.enum.filter fun ke => ke.2.1 == m).map Prod.fst).map fun k => (ir.1, k) := by
      rw [List.map_map]
      rfl
    rw [h2]
    exact h1.map fun k1 k2 hk => by simpa using hk
  · have hp : J.Pairwise fun a b => a.1 ≠ b.1 := List.pairwise_map.mp h
    refine hp.imp ?_
    intro a b hab
    intro x hxa hxb
    simp only [List.mem_map] at hxa hxb
    obtain ⟨ke1, -, h1⟩ := hxa
    obtain ⟨ke2, -, h2⟩ := hxb
    have h3 : (a.1, ke1.1) = (b.1, ke2.1) := h1.trans h2.symm
    injection h3 with h4 h5
    exact hab h4

theorem disjEmitAux_mem_shape (ops : List (JobId × ℕ)) (ent : DisjPair × DisjCon × DisjCon)
    (h : ent ∈ disjEmitAux ops) :
    ent.2.1 = DisjCon.mk ent.1.a ent.1.b ent.1.a ent.1.b true ∧
    ent.2.2 = DisjCon.mk ent.1.b ent.1.a ent.1.a ent.1.b false := by
  unfold disjEmitAux at h
  simp only [List.mem_flatMap, List.mem_map] at h
  obtain ⟨a, ha, b, hb, rfl⟩ := h
  exact ⟨rfl, rfl⟩

theorem disjEmitAux_count_aux (ops : List (JobId × ℕ)) (hnd : ops.Nodup)
    (u v : Fin ops.length) (huv : u.val < v.val) :
    ((disjEmitAux ops).map Prod.fst).countP
      (fun e => decide (e = DisjPair.mk (ops.get u) (ops.get v) ∨
        e = DisjPair.mk (ops.get v) (ops.get u))) = 1 := by
  rw [List.countP_map]
  unfold disjEmitAux
  refine count_pairs_lemma ops.length _ _ u.val v.val u.isLt huv v.isLt ?_
  intro a b ha hab hb
  simp only [Function.comp_apply, decide_eq_true_eq]
  exact pairMatch_iff ops hnd u v huv hab hb

theorem disjEmitAux_pair_count (ops : List (JobId × ℕ)) (hnd : ops.Nodup)
    {p q : JobId × ℕ} (hp : p ∈ ops) (hq : q ∈ ops) (hpq : p ≠ q) :
    ((disjEmitAux ops).map Prod.fst).countP
      (fun e => decide (e = ⟨p, q⟩ ∨ e = ⟨q, p⟩)) = 1 := by
  obtain ⟨u, rfl⟩ := List.get_of_mem hp
  obtain ⟨v, rfl⟩ := List.get_of_mem hq
  have hval : u.val ≠ v.val := fun hh => hpq (congrArg ops.get (Fin.ext hh))
  rcases Nat.lt_or_ge u.val v.val with h | h
  · exact disjEmitAux_count_aux ops hnd u v h
  · have hvu : v.val < u.val := by omega
    rw [List.countP_congr (q := fun e => decide (e = DisjPair.mk (ops.get v) (ops.get u) ∨
        e = DisjPair.mk (ops.get u) (ops.get v)))
      (fun e he => by simp only [decide_eq_true_eq]; exact or_comm)]
    exact disjEmitAux_count_aux ops hnd v u hvu

theorem disjEmitAux_nil_of_le_one (ops : List (JobId × ℕ)) (h : ops.length ≤ 1) :
    disjEmitAux ops = [] := by
  unfold disjEmitAux
  rcases Nat.le_one_iff_eq_zero_or_eq_one.mp h with h0 | h1
  · rw [h0]
    rfl
  · rw [h1]
    rfl

/-- Claim C1: in `stage_1.py`, for every machine and every unordered pair of
distinct operations assigned to it, exactly one ordering indicator is
introduced; the two constraints attached to an emitted pair `(a, b)` are
exactly `S[a] ≥ C[b] − bigM·(1−x)` and `S[b] ≥ C[a] − bigM·x` with `x` that
pair's indicator; and a machine with at most one operation contributes no
pairwise emission at all. -/
theorem claim_C1 (J : Jobs) (hkeys : (J.map Prod.fst).Nodup) (m : Machine) :
    (∀ p ∈ machineOps J m, ∀ q ∈ machineOps J m, p ≠ q →
      (disjPairs J m).countP (fun e => decide (e = ⟨p, q⟩ ∨ e = ⟨q, p⟩)) = 1) ∧
    (∀ ent ∈ disjEmit J m,
      ent.2.1 = DisjCon.mk ent.1.a ent.1.b ent.1.a ent.1.b true ∧
      ent.2.2 = DisjCon.mk ent.1.b ent.1.a ent.1.a ent.1.b false) ∧
    ((machineOps J m).length ≤ 1 → disjEmit J m = []) := by
  refine ⟨?_, ?_, ?_⟩
  · intro p hp q hq hpq
    exact disjEmitAux_pair_count (machineOps J m) (machineOps_nodup J hkeys m) hp hq hpq
  · intro ent hent
    exact disjEmitAux_mem_shape (machineOps J m) ent hent
  · intro hlen
    exact disjEmitAux_nil_of_le_one (machineOps J m) hlen

/-- Witness for C1: on the `stage_1.py` instance, the pair of machine-1
operations gets exactly one indicator. -/
theorem claim_C1_witness :
    (disjPairs jobs1 1).countP
      (fun e => decide (e = ⟨(1, 0), (2, 1)⟩ ∨ e = ⟨(2, 1), (1, 0)⟩)) = 1 :=
  (claim_C1 jobs1 (by decide) 1).1 (1, 0) (by decide) (2, 1) (by decide) (by decide)

end BTP
